import Mathlib

/-!
Verification of the core transactional-ledger logic of `bot.py`
(daily-task generation, completion/streak ledger, campaign payout engine,
withdrawal state machine).  Each definition is a shallow embedding of the
corresponding Python function; monetary amounts and counters are `Int`
(Python integers; the DB `INT` columns never overflow in these ranges).
The relational tables are embedded as lists, and the database operations as
pure state transformers, following the source line by line.
-/

namespace Bott1

/-! ## Configuration constants (bot.py lines 31-38) -/

def LEVEL_STEP_DAYS : Int := 4

def MAX_LEVEL : Int := 10

def MIN_WITHDRAW_USD_CENTS : Int := 500

def MIN_PAYOUT_USD_CENTS : Int := 1

/-- The literal `5` bounding the level bonus in `compute_campaign_payout`
(bot.py line 471); the spec calls it `LEVEL_BONUS_CAP`. -/
def LEVEL_BONUS_CAP : Int := 5

/-- `compute_level` (bot.py lines 59-61):
`lvl = 1 + max(0, streak) // LEVEL_STEP_DAYS; return min(max(lvl, 1), MAX_LEVEL)`. -/
def compute_level (streak_completed_days : Int) : Int :=
  min (max (1 + (max 0 streak_completed_days) / LEVEL_STEP_DAYS) 1) MAX_LEVEL

/-! ## Campaign payout engine (bot.py lines 458-519) -/

/-- Row of the `campaigns` table. -/
structure Campaign where
  id : Int
  name : String
  link_url : String
  budget_usd_cents : Int
  goal_completions : Int
  completed_count : Int
  spent_usd_cents : Int
  is_active : Bool
deriving DecidableEq, Repr

/-- Row of the `campaign_payouts` table, restricted to one campaign
(`campaign_id` is fixed by the enclosing state). -/
structure PayoutRow where
  user_id : Int
  paid_usd_cents : Int
deriving DecidableEq, Repr

/-- State visible to `try_pay_campaign` for a single campaign: the campaign
row, the balances of all users, and the payout rows of this campaign. -/
structure CampState where
  campaign : Campaign
  balances : Int → Int
  payouts : List PayoutRow

/-- `SELECT 1 FROM campaign_payouts WHERE campaign_id=… AND user_id=…`
(bot.py line 480). -/
def has_payout (rows : List PayoutRow) (user_id : Int) : Bool :=
  rows.any (fun r => r.user_id == user_id)

/-- `compute_campaign_payout` (bot.py lines 458-476).  The campaign row it
re-reads is the one in the state, so it is passed directly. -/
def compute_campaign_payout (c : Campaign) (user_level : Int) : Int :=
  if c.is_active = false then 0
  else
    let remaining_budget := max 0 (c.budget_usd_cents - c.spent_usd_cents)
    let remaining_needed := max 0 (c.goal_completions - c.completed_count)
    if remaining_budget ≤ 0 ∨ remaining_needed ≤ 0 then 0
    else
      let base := max MIN_PAYOUT_USD_CENTS (remaining_budget / remaining_needed)
      let bonus := min (max (user_level - 1) 0) 5
      let desired := base + bonus
      let max_allowed := remaining_budget - (remaining_needed - 1) * MIN_PAYOUT_USD_CENTS
      max MIN_PAYOUT_USD_CENTS (min desired max_allowed)

/-- The write section of `try_pay_campaign` (bot.py lines 494-517): insert the
payout row, credit the user, bump the campaign counters, and deactivate the
campaign once `completed_count >= goal` or `spent >= budget`. -/
def pay_update (s : CampState) (user_id payout : Int) : CampState :=
  let c := s.campaign
  let c1 := { c with completed_count := c.completed_count + 1,
                     spent_usd_cents := c.spent_usd_cents + payout }
  let c2 := if c1.goal_completions ≤ c1.completed_count ∨
               c1.budget_usd_cents ≤ c1.spent_usd_cents
            then { c1 with is_active := false } else c1
  { campaign := c2,
    balances := fun u => if u = user_id then s.balances u + payout else s.balances u,
    payouts := s.payouts ++ [⟨user_id, payout⟩] }

/-- `try_pay_campaign` (bot.py lines 478-519), returning the new state and the
amount paid (0 when nothing was paid). -/
def try_pay_campaign (s : CampState) (user_id user_level : Int) : CampState × Int :=
  if has_payout s.payouts user_id then (s, 0)
  else if s.campaign.is_active = false then (s, 0)
  else
    let payout := compute_campaign_payout s.campaign user_level
    if payout ≤ 0 then (s, 0)
    else (pay_update s user_id payout, payout)

/-- A finite sequence of `try_pay_campaign` calls, each given as
`(user_id, user_level)`. -/
def runPays (s : CampState) (calls : List (Int × Int)) : CampState :=
  calls.foldl (fun st c => (try_pay_campaign st c.1 c.2).1) s

/-- Number of payout rows recorded for a user. -/
def countPayouts (s : CampState) (user_id : Int) : Nat :=
  s.payouts.countP (fun r => r.user_id == user_id)

/-- The campaign safety invariant: spent and completions within bounds, and
strictly within bounds while the campaign is still active. -/
def CampInv (s : CampState) : Prop :=
  s.campaign.spent_usd_cents ≤ s.campaign.budget_usd_cents ∧
  s.campaign.completed_count ≤ s.campaign.goal_completions ∧
  (s.campaign.is_active = true →
    s.campaign.spent_usd_cents < s.campaign.budget_usd_cents ∧
    s.campaign.completed_count < s.campaign.goal_completions)

/-- `clamp` as the spec writes it: `clamp(x, lo, hi) = max(lo, min(x, hi))`. -/
def clamp (x lo hi : Int) : Int := max lo (min x hi)

/-- The payout formula exactly as the specification states it (spec section
4.3); written from the spec's words, to be compared with
`compute_campaign_payout`, which is written from the source. -/
def payout_formula_spec (budget spent goal completed user_level : Int) : Int :=
  let remainingBudget := budget - spent
  let remainingNeeded := goal - completed
  let base := max MIN_PAYOUT_USD_CENTS (remainingBudget / remainingNeeded)
  let bonus := clamp (user_level - 1) 0 LEVEL_BONUS_CAP
  let maxAllowed := remainingBudget - (remainingNeeded - 1) * MIN_PAYOUT_USD_CENTS
  clamp (base + bonus) MIN_PAYOUT_USD_CENTS maxAllowed

/-! ### Lemmas about the payout engine -/

lemma compute_pos_le (c : Campaign) (lvl : Int) (ha : c.is_active = true)
    (hs : c.spent_usd_cents < c.budget_usd_cents)
    (hc : c.completed_count < c.goal_completions) :
    1 ≤ compute_campaign_payout c lvl ∧
    compute_campaign_payout c lvl ≤ c.budget_usd_cents - c.spent_usd_cents := by
  have hrb : max 0 (c.budget_usd_cents - c.spent_usd_cents)
      = c.budget_usd_cents - c.spent_usd_cents := max_eq_right (by omega)
  have hrn : max 0 (c.goal_completions - c.completed_count)
      = c.goal_completions - c.completed_count := max_eq_right (by omega)
  unfold compute_campaign_payout
  rw [ha]
  simp only [Bool.true_eq_false, if_false, hrb, hrn, MIN_PAYOUT_USD_CENTS]
  rw [if_neg (by omega)]
  refine ⟨le_max_left _ _, max_le (by omega) (le_trans (min_le_right _ _) (by omega))⟩

lemma try_pay_cases (s : CampState) (uid lvl : Int) :
    try_pay_campaign s uid lvl = (s, 0) ∨
    (has_payout s.payouts uid = false ∧ s.campaign.is_active = true ∧
     0 < compute_campaign_payout s.campaign lvl ∧
     try_pay_campaign s uid lvl =
       (pay_update s uid (compute_campaign_payout s.campaign lvl),
        compute_campaign_payout s.campaign lvl)) := by
  by_cases hb : has_payout s.payouts uid = true
  · left; simp [try_pay_campaign, hb]
  · have hb' : has_payout s.payouts uid = false := by
      cases h : has_payout s.payouts uid
      · rfl
      · exact absurd h hb
    by_cases ha : s.campaign.is_active = false
    · left; simp [try_pay_campaign, hb', ha]
    · have ha' : s.campaign.is_active = true := by
        cases h : s.campaign.is_active
        · exact absurd h ha
        · rfl
      by_cases hp : compute_campaign_payout s.campaign lvl ≤ 0
      · left; simp [try_pay_campaign, hb', ha', hp]
      · right
        exact ⟨hb', ha', by omega, by simp [try_pay_campaign, hb', ha', hp]⟩

lemma campInv_step (s : CampState) (uid lvl : Int) (h : CampInv s) :
    CampInv (try_pay_campaign s uid lvl).1 := by
  rcases try_pay_cases s uid lvl with heq | ⟨hb, ha, hp, heq⟩
  · rw [heq]; exact h
  · rw [heq]
    obtain ⟨h1, h2, h3⟩ := h
    obtain ⟨hs, hc⟩ := h3 ha
    obtain ⟨hp1, hp2⟩ := compute_pos_le s.campaign lvl ha hs hc
    unfold pay_update CampInv
    by_cases hd : s.campaign.goal_completions ≤ s.campaign.completed_count + 1 ∨
        s.campaign.budget_usd_cents ≤ s.campaign.spent_usd_cents
          + compute_campaign_payout s.campaign lvl
    · simp only [hd, if_true]
      refine ⟨by omega, by omega, fun hact => ?_⟩
      simp at hact
    · simp only [hd, if_false]
      exact ⟨by omega, by omega, fun _ => by constructor <;> omega⟩

lemma try_pay_budget_goal (s : CampState) (uid lvl : Int) :
    (try_pay_campaign s uid lvl).1.campaign.budget_usd_cents
      = s.campaign.budget_usd_cents ∧
    (try_pay_campaign s uid lvl).1.campaign.goal_completions
      = s.campaign.goal_completions := by
  rcases try_pay_cases s uid lvl with heq | ⟨_, _, _, heq⟩
  · rw [heq]; exact ⟨rfl, rfl⟩
  · rw [heq]
    unfold pay_update
    by_cases hd : s.campaign.goal_completions ≤ s.campaign.completed_count + 1 ∨
        s.campaign.budget_usd_cents ≤ s.campaign.spent_usd_cents
          + compute_campaign_payout s.campaign lvl
    · simp only [hd, if_true]; exact ⟨trivial, trivial⟩
    · simp only [hd, if_false]; exact ⟨trivial, trivial⟩

lemma runPays_cons (s : CampState) (c : Int × Int) (cs : List (Int × Int)) :
    runPays s (c :: cs) = runPays (try_pay_campaign s c.1 c.2).1 cs := rfl

lemma runPays_inv (s : CampState) (calls : List (Int × Int)) (h : CampInv s) :
    CampInv (runPays s calls) := by
  induction calls generalizing s with
  | nil => exact h
  | cons c cs ih => rw [runPays_cons]; exact ih _ (campInv_step _ _ _ h)

lemma runPays_budget_goal (s : CampState) (calls : List (Int × Int)) :
    (runPays s calls).campaign.budget_usd_cents = s.campaign.budget_usd_cents ∧
    (runPays s calls).campaign.goal_completions = s.campaign.goal_completions := by
  induction calls generalizing s with
  | nil => exact ⟨rfl, rfl⟩
  | cons c cs ih =>
    rw [runPays_cons]
    obtain ⟨h1, h2⟩ := try_pay_budget_goal s c.1 c.2
    obtain ⟨g1, g2⟩ := ih (try_pay_campaign s c.1 c.2).1
    exact ⟨by rw [g1, h1], by rw [g2, h2]⟩

lemma try_pay_inactive (s : CampState) (uid lvl : Int)
    (h : s.campaign.is_active = false) :
    try_pay_campaign s uid lvl = (s, 0) := by
  simp [try_pay_campaign, h]

lemma runPays_inactive (s : CampState) (calls : List (Int × Int))
    (h : s.campaign.is_active = false) :
    runPays s calls = s := by
  induction calls with
  | nil => rfl
  | cons c cs ih =>
    rw [runPays_cons, try_pay_inactive s c.1 c.2 h]
    exact ih

lemma try_pay_zero_or_min (s : CampState) (uid lvl : Int) :
    (try_pay_campaign s uid lvl).2 = 0 ∨
    MIN_PAYOUT_USD_CENTS ≤ (try_pay_campaign s uid lvl).2 := by
  rcases try_pay_cases s uid lvl with heq | ⟨hb, ha, hp, heq⟩
  · left; rw [heq]
  · right
    rw [heq]
    show MIN_PAYOUT_USD_CENTS ≤ compute_campaign_payout s.campaign lvl
    unfold MIN_PAYOUT_USD_CENTS
    omega

lemma has_payout_false_count (rows : List PayoutRow) (uid : Int)
    (h : has_payout rows uid = false) :
    rows.countP (fun r => r.user_id == uid) = 0 := by
  rw [List.countP_eq_zero]
  intro a ha
  have := List.any_eq_false.mp h a ha
  simpa using this

lemma try_pay_has (s : CampState) (uid lvl : Int)
    (h : has_payout s.payouts uid = true) :
    try_pay_campaign s uid lvl = (s, 0) := by
  simp [try_pay_campaign, h]

lemma paid_frozen_step (s : CampState) (uid uid' lvl' : Int)
    (h : has_payout s.payouts uid = true) :
    has_payout (try_pay_campaign s uid' lvl').1.payouts uid = true ∧
    countPayouts (try_pay_campaign s uid' lvl').1 uid = countPayouts s uid ∧
    (try_pay_campaign s uid' lvl').1.balances uid = s.balances uid := by
  rcases try_pay_cases s uid' lvl' with heq | ⟨hb, ha, hp, heq⟩
  · rw [heq]; exact ⟨h, rfl, rfl⟩
  · have hne : ¬ (uid = uid') := by
      intro he
      rw [← he] at hb
      rw [h] at hb
      exact Bool.noConfusion hb
    rw [heq]
    unfold has_payout at h
    unfold pay_update has_payout countPayouts
    refine ⟨?_, ?_, ?_⟩
    · simp only [List.any_append, h, Bool.true_or]
    · simp only [List.countP_append]
      have hone : List.countP (fun r => r.user_id == uid)
          [(⟨uid', compute_campaign_payout s.campaign lvl'⟩ : PayoutRow)] = 0 := by
        simp
        intro he
        exact hne he.symm
      rw [hone, Nat.add_zero]
    · simp only []
      rw [if_neg hne]

lemma paid_frozen_run (s : CampState) (uid : Int) (calls : List (Int × Int))
    (h : has_payout s.payouts uid = true) :
    has_payout (runPays s calls).payouts uid = true ∧
    countPayouts (runPays s calls) uid = countPayouts s uid ∧
    (runPays s calls).balances uid = s.balances uid := by
  induction calls generalizing s with
  | nil => exact ⟨h, rfl, rfl⟩
  | cons c cs ih =>
    rw [runPays_cons]
    obtain ⟨h1, h2, h3⟩ := paid_frozen_step s uid c.1 c.2 h
    obtain ⟨g1, g2, g3⟩ := ih _ h1
    exact ⟨g1, by rw [g2, h2], by rw [g3, h3]⟩

/-! ### Claim theorems for the payout engine -/

/-- C1: starting from a freshly created campaign (`spent = 0`,
`completed_count = 0`, positive budget and goal as `newcampaign` validates),
after any sequence of `try_pay_campaign` calls the campaign satisfies
`spent ≤ budget` and `completed_count ≤ goal`; every call that pays a non-zero
amount pays at least `MIN_PAYOUT_USD_CENTS`; and once `completed_count = goal`
or `spent = budget` the campaign is inactive and every subsequent call
returns 0. -/
theorem try_pay_campaign_budget_safety
    (cid : Int) (cname curl : String) (budget goal : Int)
    (hb : 0 < budget) (hg : 0 < goal)
    (bal0 : Int → Int) (calls : List (Int × Int)) :
    (runPays ⟨⟨cid, cname, curl, budget, goal, 0, 0, true⟩, bal0, []⟩
        calls).campaign.spent_usd_cents ≤ budget ∧
    (runPays ⟨⟨cid, cname, curl, budget, goal, 0, 0, true⟩, bal0, []⟩
        calls).campaign.completed_count ≤ goal ∧
    (∀ uid lvl,
      (try_pay_campaign (runPays ⟨⟨cid, cname, curl, budget, goal, 0, 0, true⟩,
          bal0, []⟩ calls) uid lvl).2 = 0 ∨
      MIN_PAYOUT_USD_CENTS ≤
        (try_pay_campaign (runPays ⟨⟨cid, cname, curl, budget, goal, 0, 0, true⟩,
          bal0, []⟩ calls) uid lvl).2) ∧
    (((runPays ⟨⟨cid, cname, curl, budget, goal, 0, 0, true⟩,
          bal0, []⟩ calls).campaign.completed_count = goal ∨
      (runPays ⟨⟨cid, cname, curl, budget, goal, 0, 0, true⟩,
          bal0, []⟩ calls).campaign.spent_usd_cents = budget) →
      (runPays ⟨⟨cid, cname, curl, budget, goal, 0, 0, true⟩,
          bal0, []⟩ calls).campaign.is_active = false ∧
      ∀ calls2 uid lvl,
        (try_pay_campaign
          (runPays (runPays ⟨⟨cid, cname, curl, budget, goal, 0, 0, true⟩,
            bal0, []⟩ calls) calls2) uid lvl).2 = 0) := by
  set s0 : CampState := ⟨⟨cid, cname, curl, budget, goal, 0, 0, true⟩, bal0, []⟩
    with hs0
  have hinv0 : CampInv s0 :=
    ⟨show (0 : Int) ≤ budget by omega, show (0 : Int) ≤ goal by omega,
      fun _ => ⟨show (0 : Int) < budget from hb, show (0 : Int) < goal from hg⟩⟩
  have hinv := runPays_inv s0 calls hinv0
  obtain ⟨hB, hG⟩ := runPays_budget_goal s0 calls
  rw [show s0.campaign.budget_usd_cents = budget from rfl] at hB
  rw [show s0.campaign.goal_completions = goal from rfl] at hG
  obtain ⟨h1, h2, h3⟩ := hinv
  refine ⟨by omega, by omega, fun uid lvl => try_pay_zero_or_min _ uid lvl,
    fun hterm => ?_⟩
  have hina : (runPays s0 calls).campaign.is_active = false := by
    cases hact : (runPays s0 calls).campaign.is_active
    · rfl
    · obtain ⟨hlt1, hlt2⟩ := h3 hact
      omega
  refine ⟨hina, fun calls2 uid lvl => ?_⟩
  rw [runPays_inactive _ calls2 hina, try_pay_inactive _ uid lvl hina]

theorem try_pay_campaign_budget_safety_witness :
    (0 : Int) < 100 ∧ (0 : Int) < 10 ∧
    (runPays ⟨⟨1, "c", "u", 100, 10, 0, 0, true⟩, fun _ => 0, []⟩
        [(7, 3)]).campaign.spent_usd_cents ≤ 100 :=
  ⟨by decide, by decide,
    (try_pay_campaign_budget_safety 1 "c" "u" 100 10 (by decide) (by decide)
      (fun _ => 0) [(7, 3)]).1⟩

/-- C7: once a `try_pay_campaign` call pays a user a non-zero amount, exactly
one `campaign_payouts` row exists for that user, and after any further call
sequence the row count is still one, that user's balance is unchanged, and any
further call for the same user returns 0. -/
theorem campaign_payout_single_use (s : CampState) (uid lvl : Int)
    (h : (try_pay_campaign s uid lvl).2 ≠ 0) :
    countPayouts (try_pay_campaign s uid lvl).1 uid = 1 ∧
    ∀ calls,
      countPayouts (runPays (try_pay_campaign s uid lvl).1 calls) uid = 1 ∧
      (runPays (try_pay_campaign s uid lvl).1 calls).balances uid
        = (try_pay_campaign s uid lvl).1.balances uid ∧
      ∀ lvl2,
        (try_pay_campaign (runPays (try_pay_campaign s uid lvl).1 calls)
          uid lvl2).2 = 0 := by
  rcases try_pay_cases s uid lvl with heq | ⟨hb, ha, hp, heq⟩
  · rw [heq] at h; exact absurd rfl h
  · have hcount0 := has_payout_false_count s.payouts uid hb
    have hpay1 : (try_pay_campaign s uid lvl).1.payouts
        = s.payouts ++ [⟨uid, compute_campaign_payout s.campaign lvl⟩] := by
      rw [heq]
      rfl
    have h1 : has_payout (try_pay_campaign s uid lvl).1.payouts uid = true := by
      rw [hpay1]
      unfold has_payout
      simp
    have hc1 : countPayouts (try_pay_campaign s uid lvl).1 uid = 1 := by
      unfold countPayouts
      rw [hpay1, List.countP_append, hcount0]
      simp
    refine ⟨hc1, fun calls => ?_⟩
    obtain ⟨g1, g2, g3⟩ := paid_frozen_run _ uid calls h1
    refine ⟨by rw [g2, hc1], g3, fun lvl2 => ?_⟩
    rw [try_pay_has _ uid lvl2 g1]

theorem campaign_payout_single_use_witness :
    (try_pay_campaign ⟨⟨1, "c", "u", 100, 10, 0, 0, true⟩, fun _ => 0, []⟩
        7 1).2 ≠ 0 ∧
    countPayouts (try_pay_campaign ⟨⟨1, "c", "u", 100, 10, 0, 0, true⟩,
        fun _ => 0, []⟩ 7 1).1 7 = 1 :=
  ⟨by decide,
    (campaign_payout_single_use ⟨⟨1, "c", "u", 100, 10, 0, 0, true⟩,
      fun _ => 0, []⟩ 7 1 (by decide)).1⟩

lemma min_max_swap (x cap : Int) (hcap : 0 ≤ cap) :
    min (max x 0) cap = max 0 (min x cap) := by
  rcases le_total x 0 with h | h
  · rw [max_eq_right h, min_eq_left hcap, min_eq_left (le_trans h hcap),
      max_eq_left h]
  · rw [max_eq_left h, max_eq_right (le_min h hcap)]

/-- C2 counterexample: with budget 1, goal 2, nothing spent and nothing
completed (both remainders positive), `maxAllowed = 1 - (2-1)*1 = 0`, yet the
code returns `max(MIN_PAYOUT, min(desired, 0)) = 1 > maxAllowed`: the payout
CAN exceed `maxAllowed`. -/
theorem compute_campaign_payout_exceeds_max_allowed :
    compute_campaign_payout ⟨1, "n", "u", 1, 2, 0, 0, true⟩ 1 = 1 ∧
    ((1 : Int) - 0) - (((2 : Int) - 0) - 1) * MIN_PAYOUT_USD_CENTS = 0 ∧
    ¬ compute_campaign_payout ⟨1, "n", "u", 1, 2, 0, 0, true⟩ 1
        ≤ ((1 : Int) - 0) - (((2 : Int) - 0) - 1) * MIN_PAYOUT_USD_CENTS := by
  refine ⟨by decide, by decide, by decide⟩

/-- C2 (amended): for an active campaign with positive remaining budget and
positive remaining needed completions, `compute_campaign_payout` equals the
spec's `clamp(base + bonus, MIN_PAYOUT, maxAllowed)` (with the lower bound
taking precedence); the payout is bounded by `maxAllowed` whenever
`remainingNeeded ≤ remainingBudget` (equivalently `maxAllowed ≥ MIN_PAYOUT`),
though not in general; and in the concrete scenario budget=100, goal=10,
level 1, each of the ten payouts is 10, the tenth reaching `spent = 100` and
deactivating the campaign. -/
theorem compute_campaign_payout_clamp (c : Campaign) (lvl : Int)
    (ha : c.is_active = true)
    (hrb : 0 < c.budget_usd_cents - c.spent_usd_cents)
    (hrn : 0 < c.goal_completions - c.completed_count) :
    (compute_campaign_payout c lvl
      = payout_formula_spec c.budget_usd_cents c.spent_usd_cents
          c.goal_completions c.completed_count lvl) ∧
    (c.goal_completions - c.completed_count
        ≤ c.budget_usd_cents - c.spent_usd_cents →
      compute_campaign_payout c lvl
        ≤ (c.budget_usd_cents - c.spent_usd_cents)
          - ((c.goal_completions - c.completed_count) - 1)
            * MIN_PAYOUT_USD_CENTS) ∧
    ((runPays ⟨⟨1, "n", "u", 100, 10, 0, 0, true⟩, fun _ => 0, []⟩
        [(0, 1), (1, 1), (2, 1), (3, 1), (4, 1),
         (5, 1), (6, 1), (7, 1), (8, 1), (9, 1)]).payouts.map
        (fun r => r.paid_usd_cents) = List.replicate 10 10 ∧
     (runPays ⟨⟨1, "n", "u", 100, 10, 0, 0, true⟩, fun _ => 0, []⟩
        [(0, 1), (1, 1), (2, 1), (3, 1), (4, 1),
         (5, 1), (6, 1), (7, 1), (8, 1), (9, 1)]).campaign.spent_usd_cents
        = 100 ∧
     (runPays ⟨⟨1, "n", "u", 100, 10, 0, 0, true⟩, fun _ => 0, []⟩
        [(0, 1), (1, 1), (2, 1), (3, 1), (4, 1),
         (5, 1), (6, 1), (7, 1), (8, 1), (9, 1)]).campaign.is_active
        = false) := by
  have hb : max 0 (c.budget_usd_cents - c.spent_usd_cents)
      = c.budget_usd_cents - c.spent_usd_cents := max_eq_right (by omega)
  have hn : max 0 (c.goal_completions - c.completed_count)
      = c.goal_completions - c.completed_count := max_eq_right (by omega)
  refine ⟨?_, ?_, by decide, by decide, by decide⟩
  · unfold compute_campaign_payout payout_formula_spec clamp
    rw [ha]
    simp only [Bool.true_eq_false, if_false, hb, hn]
    rw [if_neg (by omega)]
    rw [min_max_swap (lvl - 1) 5 (by decide)]
    rfl
  · intro hle
    unfold compute_campaign_payout
    rw [ha]
    simp only [Bool.true_eq_false, if_false, hb, hn]
    rw [if_neg (by omega)]
    unfold MIN_PAYOUT_USD_CENTS
    refine max_le (by omega) (le_trans (min_le_right _ _) (by omega))

theorem compute_campaign_payout_clamp_witness :
    ((⟨1, "n", "u", 100, 10, 3, 30, true⟩ : Campaign).is_active = true ∧
     (0 : Int) < 100 - 30 ∧ (0 : Int) < 10 - 3) ∧
    compute_campaign_payout ⟨1, "n", "u", 100, 10, 3, 30, true⟩ 4
      = payout_formula_spec 100 30 10 3 4 :=
  ⟨⟨by decide, by decide, by decide⟩,
    (compute_campaign_payout_clamp ⟨1, "n", "u", 100, 10, 3, 30, true⟩ 4
      (by decide) (by decide) (by decide)).1⟩

/-! ## Withdrawal state machine (bot.py lines 523-580, 1093-1143, 1330-1456)

One user's funds and their withdrawals; withdrawal ids are list positions
(the `BIGSERIAL` primary key, counted from 0). -/

inductive WStatus
  | awaiting_details
  | pending
  | paid
  | rejected
deriving DecidableEq, Repr

/-- Row of the `withdrawals` table (for the modelled user). -/
structure Withdrawal where
  amount_usd_cents : Int
  payout_details : Option String
  status : WStatus
  admin_note : Option String
deriving DecidableEq, Repr

/-- The withdrawal-relevant columns of the modelled user's `users` row. -/
structure UserRec where
  balance_usd_cents : Int
  held_usd_cents : Int
  pending_withdraw_id : Option Nat
deriving DecidableEq, Repr

structure WState where
  user : UserRec
  withdrawals : List Withdrawal
deriving DecidableEq, Repr

/-- `create_withdrawal_request` (bot.py lines 523-553): the conditional
update moves `amount` from balance to held only when `balance ≥ amount`;
zero rows updated means rollback and a raised error (`none`). -/
def create_withdrawal_request (s : WState) (amount_cents : Int) :
    Option (WState × Nat) :=
  if amount_cents ≤ s.user.balance_usd_cents then
    let wid := s.withdrawals.length
    some ({ user := { balance_usd_cents := s.user.balance_usd_cents - amount_cents,
                      held_usd_cents := s.user.held_usd_cents + amount_cents,
                      pending_withdraw_id := some wid },
            withdrawals := s.withdrawals ++
              [⟨amount_cents, none, WStatus.awaiting_details, none⟩] }, wid)
  else none

inductive RequestResult
  | pending_exists (wid : Nat)
  | not_enough
  | created (wid : Nat)
  | error
deriving DecidableEq, Repr

/-- The `retirar` handler's transactional part (bot.py lines 1096-1109):
refuse when a withdrawal is already pending or the balance is below the
minimum, otherwise request a withdrawal of the user's FULL available
balance. -/
def retirar_request (s : WState) : RequestResult × WState :=
  match s.user.pending_withdraw_id with
  | some wid => (RequestResult.pending_exists wid, s)
  | none =>
    if s.user.balance_usd_cents < MIN_WITHDRAW_USD_CENTS then
      (RequestResult.not_enough, s)
    else
      match create_withdrawal_request s s.user.balance_usd_cents with
      | some (s', wid) => (RequestResult.created wid, s')
      | none => (RequestResult.error, s)

/-- `attach_withdrawal_details` (bot.py lines 555-580): if the user has a
`pending_withdraw_id`, set that withdrawal's payout details and status to
`pending` — with NO precondition on its current status — and clear
`pending_withdraw_id`. -/
def attach_withdrawal_details (s : WState) (details : String) :
    Option (Nat × Int) × WState :=
  match s.user.pending_withdraw_id with
  | none => (none, s)
  | some wid =>
    match s.withdrawals[wid]? with
    | none =>
      (none, { s with user := { s.user with pending_withdraw_id := none } })
    | some w =>
      ((some (wid, w.amount_usd_cents)),
       { user := { s.user with pending_withdraw_id := none },
         withdrawals := s.withdrawals.set wid
           { w with payout_details := some details,
                    status := WStatus.pending } })

inductive PayResult
  | not_found
  | not_pending
  | insufficient_held
  | ok
deriving DecidableEq, Repr

/-- `paywithdraw` (bot.py lines 1342-1375): requires status exactly
`pending` and `held ≥ amount`; marks paid and deducts `amount` from held,
never touching balance. -/
def paywithdraw (s : WState) (wid : Nat) (note : String) :
    PayResult × WState :=
  match s.withdrawals[wid]? with
  | none => (PayResult.not_found, s)
  | some w =>
    if w.status ≠ WStatus.pending then (PayResult.not_pending, s)
    else if s.user.held_usd_cents < w.amount_usd_cents then
      (PayResult.insufficient_held, s)
    else
      (PayResult.ok,
       { user := { s.user with
           held_usd_cents := s.user.held_usd_cents - w.amount_usd_cents },
         withdrawals := s.withdrawals.set wid
           { w with status := WStatus.paid, admin_note := some note } })

inductive RejectResult
  | not_found
  | not_rejectable
  | ok
deriving DecidableEq, Repr

/-- `rejectwithdraw` (bot.py lines 1410-1437): from `pending` or
`awaiting_details`, marks rejected, sets
`held := GREATEST(0, held - amount)` and `balance := balance + amount`.
It does NOT clear the user's `pending_withdraw_id`. -/
def rejectwithdraw (s : WState) (wid : Nat) (reason : String) :
    RejectResult × WState :=
  match s.withdrawals[wid]? with
  | none => (RejectResult.not_found, s)
  | some w =>
    if w.status = WStatus.pending ∨ w.status = WStatus.awaiting_details then
      (RejectResult.ok,
       { user := { s.user with
           held_usd_cents := max 0 (s.user.held_usd_cents - w.amount_usd_cents),
           balance_usd_cents := s.user.balance_usd_cents + w.amount_usd_cents },
         withdrawals := s.withdrawals.set wid
           { w with status := WStatus.rejected, admin_note := some reason } })
    else (RejectResult.not_rejectable, s)

lemma concat_getElem (l : List α) (a : α) : (l ++ [a])[l.length]? = some a := by
  induction l with
  | nil => rfl
  | cons x xs ih => simp [ih]

lemma concat_set (l : List α) (a b : α) :
    (l ++ [a]).set l.length b = l ++ [b] := by
  induction l with
  | nil => rfl
  | cons x xs ih => simp [ih]

/-! ### Claim theorems for the withdrawal machine -/

/-- C3: a withdrawal request conserves `balance + held`, moves the user's
full available balance into held (fixing the withdrawal amount to that
balance), and aborts with no state change when the balance check fails; a
subsequent reject restores balance and held to their exact pre-request
values; a subsequent (successful) pay reduces held by exactly the amount and
leaves balance unchanged. -/
theorem withdrawal_conservation (bal held : Int) (ws : List Withdrawal)
    (hmin : MIN_WITHDRAW_USD_CENTS ≤ bal) (hheld : 0 ≤ held)
    (details note reason : String) :
    (retirar_request ⟨⟨bal, held, none⟩, ws⟩).1
      = RequestResult.created ws.length ∧
    ((retirar_request ⟨⟨bal, held, none⟩, ws⟩).2.user.balance_usd_cents
      + (retirar_request ⟨⟨bal, held, none⟩, ws⟩).2.user.held_usd_cents
      = bal + held) ∧
    (retirar_request ⟨⟨bal, held, none⟩, ws⟩).2.user.balance_usd_cents = 0 ∧
    ((retirar_request ⟨⟨bal, held, none⟩, ws⟩).2.withdrawals.getLast?).map
      (fun w => w.amount_usd_cents) = some bal ∧
    ((rejectwithdraw (retirar_request ⟨⟨bal, held, none⟩, ws⟩).2
        ws.length reason).2.user.balance_usd_cents = bal ∧
     (rejectwithdraw (retirar_request ⟨⟨bal, held, none⟩, ws⟩).2
        ws.length reason).2.user.held_usd_cents = held) ∧
    ((paywithdraw (attach_withdrawal_details
        (retirar_request ⟨⟨bal, held, none⟩, ws⟩).2 details).2
        ws.length note).1 = PayResult.ok ∧
     (paywithdraw (attach_withdrawal_details
        (retirar_request ⟨⟨bal, held, none⟩, ws⟩).2 details).2
        ws.length note).2.user.balance_usd_cents
      = (attach_withdrawal_details
          (retirar_request ⟨⟨bal, held, none⟩, ws⟩).2
          details).2.user.balance_usd_cents ∧
     (paywithdraw (attach_withdrawal_details
        (retirar_request ⟨⟨bal, held, none⟩, ws⟩).2 details).2
        ws.length note).2.user.held_usd_cents
      = (attach_withdrawal_details
          (retirar_request ⟨⟨bal, held, none⟩, ws⟩).2
          details).2.user.held_usd_cents - bal) ∧
    (∀ amt, bal < amt →
      create_withdrawal_request ⟨⟨bal, held, none⟩, ws⟩ amt = none) := by
  have hreq : retirar_request ⟨⟨bal, held, none⟩, ws⟩
      = (RequestResult.created ws.length,
         ⟨⟨bal - bal, held + bal, some ws.length⟩,
          ws ++ [⟨bal, none, WStatus.awaiting_details, none⟩]⟩) := by
    simp only [retirar_request, create_withdrawal_request]
    rw [if_neg (show ¬ bal < MIN_WITHDRAW_USD_CENTS by omega),
      if_pos (le_refl bal)]
  have hrej : rejectwithdraw
      (⟨⟨bal - bal, held + bal, some ws.length⟩,
        ws ++ [⟨bal, none, WStatus.awaiting_details, none⟩]⟩ : WState)
      ws.length reason
      = (RejectResult.ok,
         ⟨⟨bal - bal + bal, max 0 (held + bal - bal), some ws.length⟩,
          ws ++ [⟨bal, none, WStatus.rejected, some reason⟩]⟩) := by
    simp only [rejectwithdraw]
    rw [concat_getElem]
    simp only []
    rw [concat_set]
    simp
  have hatt : attach_withdrawal_details
      (⟨⟨bal - bal, held + bal, some ws.length⟩,
        ws ++ [⟨bal, none, WStatus.awaiting_details, none⟩]⟩ : WState) details
      = (some (ws.length, bal),
         ⟨⟨bal - bal, held + bal, none⟩,
          ws ++ [⟨bal, some details, WStatus.pending, none⟩]⟩) := by
    simp only [attach_withdrawal_details]
    rw [concat_getElem]
    simp only []
    rw [concat_set]
  have hpay : paywithdraw
      (⟨⟨bal - bal, held + bal, none⟩,
        ws ++ [⟨bal, some details, WStatus.pending, none⟩]⟩ : WState)
      ws.length note
      = (PayResult.ok,
         ⟨⟨bal - bal, held + bal - bal, none⟩,
          ws ++ [⟨bal, some details, WStatus.paid, some note⟩]⟩) := by
    simp only [paywithdraw]
    rw [concat_getElem]
    simp only []
    rw [if_neg (show ¬ (WStatus.pending ≠ WStatus.pending) by simp),
      if_neg (show ¬ (held + bal < bal) by omega)]
    rw [concat_set]
  rw [hreq]
  simp only []
  refine ⟨trivial, by omega, by omega, by rw [List.getLast?_concat]; rfl,
    ?_, ?_, ?_⟩
  · rw [hrej]
    simp only []
    constructor
    · show bal - bal + bal = bal
      omega
    · show max 0 (held + bal - bal) = held
      omega
  · rw [hatt]
    simp only []
    rw [hpay]
    exact ⟨rfl, rfl, rfl⟩
  · intro amt hamt
    simp only [create_withdrawal_request]
    rw [if_neg (show ¬ amt ≤ bal by omega)]

theorem withdrawal_conservation_witness :
    MIN_WITHDRAW_USD_CENTS ≤ (600 : Int) ∧
    (rejectwithdraw (retirar_request ⟨⟨600, 40, none⟩, []⟩).2
      0 "r").2.user.balance_usd_cents = 600 :=
  ⟨by decide,
    (withdrawal_conservation 600 40 [] (by decide) (by decide)
      "d" "n" "r").2.2.2.2.1.1⟩

/-- C4 is refuted by the code: `rejectwithdraw` does not clear the user's
`pending_withdraw_id`, and `attach_withdrawal_details` sets the status to
`pending` without checking the current status.  So after request → reject
(status `rejected`, a terminal state), the user's next text message re-opens
the withdrawal: its status becomes `pending` again, from which it can even be
paid. -/
theorem rejected_withdrawal_reopened :
    ((rejectwithdraw (retirar_request ⟨⟨500, 0, none⟩, []⟩).2
        0 "fraude").2.withdrawals.map (fun w => w.status)
      = [WStatus.rejected]) ∧
    ((attach_withdrawal_details
        (rejectwithdraw (retirar_request ⟨⟨500, 0, none⟩, []⟩).2
          0 "fraude").2 "Alias X").2.withdrawals.map (fun w => w.status)
      = [WStatus.pending]) ∧
    ((paywithdraw
        (attach_withdrawal_details
          (rejectwithdraw (retirar_request ⟨⟨500, 0, none⟩, []⟩).2
            0 "fraude").2 "Alias X").2 0 "ok").1 ≠ PayResult.not_pending) := by
  refine ⟨by decide, by decide, by decide⟩

/-- C9: rejecting a withdrawal clamps held at zero
(`held := GREATEST(0, held - amount)`) while crediting the full amount to
balance; when `held < amount` at rejection time, `balance + held` strictly
increases across the reject. -/
theorem rejectwithdraw_clamps_held (s : WState) (wid : Nat) (reason : String)
    (w : Withdrawal) (hw : s.withdrawals[wid]? = some w)
    (hst : w.status = WStatus.pending ∨ w.status = WStatus.awaiting_details) :
    (rejectwithdraw s wid reason).2.user.held_usd_cents
      = max 0 (s.user.held_usd_cents - w.amount_usd_cents) ∧
    (rejectwithdraw s wid reason).2.user.balance_usd_cents
      = s.user.balance_usd_cents + w.amount_usd_cents ∧
    (s.user.held_usd_cents < w.amount_usd_cents →
      s.user.balance_usd_cents + s.user.held_usd_cents
        < (rejectwithdraw s wid reason).2.user.balance_usd_cents
          + (rejectwithdraw s wid reason).2.user.held_usd_cents) := by
  have hr : rejectwithdraw s wid reason
      = (RejectResult.ok,
         { user := { s.user with
             held_usd_cents := max 0 (s.user.held_usd_cents - w.amount_usd_cents),
             balance_usd_cents := s.user.balance_usd_cents + w.amount_usd_cents },
           withdrawals := s.withdrawals.set wid
             { w with status := WStatus.rejected, admin_note := some reason } }) := by
    simp only [rejectwithdraw, hw]
    rw [if_pos hst]
  rw [hr]
  refine ⟨rfl, rfl, fun hlt => ?_⟩
  show s.user.balance_usd_cents + s.user.held_usd_cents
    < s.user.balance_usd_cents + w.amount_usd_cents
      + max 0 (s.user.held_usd_cents - w.amount_usd_cents)
  rw [max_eq_left (by omega)]
  omega

theorem rejectwithdraw_clamps_held_witness :
    ((⟨⟨0, 3, none⟩, [⟨5, none, WStatus.pending, none⟩]⟩ : WState).user.held_usd_cents
      < (5 : Int)) ∧
    (rejectwithdraw ⟨⟨0, 3, none⟩, [⟨5, none, WStatus.pending, none⟩]⟩
      0 "r").2.user.balance_usd_cents = 0 + 5 :=
  ⟨by decide,
    (rejectwithdraw_clamps_held ⟨⟨0, 3, none⟩, [⟨5, none, WStatus.pending, none⟩]⟩
      0 "r" ⟨5, none, WStatus.pending, none⟩ (by decide)
      (Or.inl rfl)).2.1⟩

/-- C10: paying a withdrawal additionally requires `held ≥ amount`; when
`held < amount` the operation reports `insufficient_held` and changes
nothing (neither the withdrawal status nor the user's balance or held). -/
theorem paywithdraw_insufficient_held (s : WState) (wid : Nat) (note : String)
    (w : Withdrawal) (hw : s.withdrawals[wid]? = some w)
    (hst : w.status = WStatus.pending)
    (hh : s.user.held_usd_cents < w.amount_usd_cents) :
    paywithdraw s wid note = (PayResult.insufficient_held, s) := by
  simp only [paywithdraw, hw]
  rw [if_neg (show ¬ (w.status ≠ WStatus.pending) by simp [hst]),
    if_pos hh]

theorem paywithdraw_insufficient_held_witness :
    ((⟨⟨0, 3, none⟩, [⟨7, some "x", WStatus.pending, none⟩]⟩ :
        WState).user.held_usd_cents < (7 : Int)) ∧
    paywithdraw ⟨⟨0, 3, none⟩, [⟨7, some "x", WStatus.pending, none⟩]⟩ 0 "n"
      = (PayResult.insufficient_held,
         ⟨⟨0, 3, none⟩, [⟨7, some "x", WStatus.pending, none⟩]⟩) :=
  ⟨by decide,
    paywithdraw_insufficient_held
      ⟨⟨0, 3, none⟩, [⟨7, some "x", WStatus.pending, none⟩]⟩ 0 "n"
      ⟨7, some "x", WStatus.pending, none⟩ (by decide) rfl (by decide)⟩

/-! ## Completion ledger and streak/level (bot.py lines 323-388)

Days are calendar ordinals (`Int`); `day - 1` is the previous day.  The
`task_completions` table (primary key `(user_id, task_id)`) is a list of
such pairs; the primary key makes the membership-guarded insert below the
exact semantics of `INSERT … ON CONFLICT DO NOTHING`. -/

/-- The streak columns of a `users` row. -/
structure CUser where
  last_completed_date : Option Int
  streak_days : Int
  level : Int
deriving DecidableEq, Repr

/-- `complete_task` (bot.py lines 323-332): insert `(user_id, task_id)` with
`ON CONFLICT DO NOTHING`; returns the new table and whether a row was
inserted. -/
def complete_task (comps : List (Int × Int)) (user_id task_id : Int) :
    List (Int × Int) × Bool :=
  if (user_id, task_id) ∈ comps then (comps, false)
  else (comps ++ [(user_id, task_id)], true)

/-- `all_tasks_done` (bot.py lines 348-359): `tasks` is the list of today's
`daily_tasks` ids; true iff there is at least one task and the user completed
each of them (count equality in the source coincides with this because the
completion table's primary key forbids duplicates). -/
def all_tasks_done (tasks : List Int) (comps : List (Int × Int))
    (user_id : Int) : Bool :=
  0 < tasks.length && tasks.all (fun t => (user_id, t) ∈ comps)

/-- `apply_streak_if_day_completed` (bot.py lines 361-388). -/
def apply_streak_if_day_completed (tasks : List Int)
    (comps : List (Int × Int)) (u : CUser) (user_id day : Int) :
    CUser × Bool :=
  if ¬ all_tasks_done tasks comps user_id then (u, false)
  else if u.last_completed_date = some day then (u, false)
  else
    let streak := if u.last_completed_date = some (day - 1)
                  then u.streak_days + 1 else 1
    ({ last_completed_date := some day, streak_days := streak,
       level := compute_level streak }, true)

/-- The completion flow shared by the `checkin`/`quiz`/`go` handlers:
`complete_task` followed by `apply_streak_if_day_completed`, returning the
new completion table, the new user row, and the `inserted` flag. -/
def complete_task_flow (tasks : List Int) (comps : List (Int × Int))
    (u : CUser) (user_id task_id day : Int) :
    List (Int × Int) × CUser × Bool :=
  let r := complete_task comps user_id task_id
  let r2 := apply_streak_if_day_completed tasks r.1 u user_id day
  (r.1, r2.1, r.2)

/-- One full `complete_task_flow` step on the `(completions, user)` part of
the state, for iterating repeated calls. -/
def flow_step (tasks : List Int) (user_id task_id day : Int)
    (p : List (Int × Int) × CUser) : List (Int × Int) × CUser :=
  let r := complete_task_flow tasks p.1 p.2 user_id task_id day
  (r.1, r.2.1)

lemma apply_streak_idem (tasks : List Int) (comps : List (Int × Int))
    (u : CUser) (uid day : Int) :
    (apply_streak_if_day_completed tasks comps
      (apply_streak_if_day_completed tasks comps u uid day).1 uid day).1
    = (apply_streak_if_day_completed tasks comps u uid day).1 := by
  by_cases h1 : ¬ all_tasks_done tasks comps uid = true
  · have hmid : apply_streak_if_day_completed tasks comps u uid day = (u, false) := by
      unfold apply_streak_if_day_completed
      rw [if_pos h1]
    rw [hmid]
    simp only []
    rw [hmid]
  · by_cases h2 : u.last_completed_date = some day
    · have hmid : apply_streak_if_day_completed tasks comps u uid day = (u, false) := by
        unfold apply_streak_if_day_completed
        rw [if_neg h1, if_pos h2]
      rw [hmid]
      simp only []
      rw [hmid]
    · have hmid : (apply_streak_if_day_completed tasks comps u uid day).1
          = ⟨some day,
             if u.last_completed_date = some (day - 1) then u.streak_days + 1 else 1,
             compute_level (if u.last_completed_date = some (day - 1)
               then u.streak_days + 1 else 1)⟩ := by
        unfold apply_streak_if_day_completed
        rw [if_neg h1, if_neg h2]
      rw [hmid]
      unfold apply_streak_if_day_completed
      rw [if_neg h1, if_pos rfl]


/-! ### Claim theorems for the completion ledger -/

/-- C5: for a pair `(user, task)` not yet completed, calling the completion
flow a second (or any later) time inserts nothing (the task is reported as
already done), leaves exactly one completion row for the pair, and leaves
the streak/level/last-completed state exactly as after the first call. -/
theorem complete_task_idempotent (tasks : List Int)
    (comps : List (Int × Int)) (u : CUser) (uid tid day : Int)
    (hfresh : (uid, tid) ∉ comps) :
    (complete_task_flow tasks
        (complete_task_flow tasks comps u uid tid day).1
        (complete_task_flow tasks comps u uid tid day).2.1
        uid tid day).2.2 = false ∧
    (complete_task_flow tasks
        (complete_task_flow tasks comps u uid tid day).1
        (complete_task_flow tasks comps u uid tid day).2.1
        uid tid day).1
      = (complete_task_flow tasks comps u uid tid day).1 ∧
    (complete_task_flow tasks
        (complete_task_flow tasks comps u uid tid day).1
        (complete_task_flow tasks comps u uid tid day).2.1
        uid tid day).2.1
      = (complete_task_flow tasks comps u uid tid day).2.1 ∧
    ((complete_task_flow tasks comps u uid tid day).1.count (uid, tid) = 1) ∧
    (∀ n, (flow_step tasks uid tid day)^[n]
        ((complete_task_flow tasks comps u uid tid day).1,
         (complete_task_flow tasks comps u uid tid day).2.1)
      = ((complete_task_flow tasks comps u uid tid day).1,
         (complete_task_flow tasks comps u uid tid day).2.1)) := by
  have hct : complete_task comps uid tid = (comps ++ [(uid, tid)], true) := by
    unfold complete_task
    rw [if_neg hfresh]
  have hflow1 : complete_task_flow tasks comps u uid tid day
      = (comps ++ [(uid, tid)],
         (apply_streak_if_day_completed tasks (comps ++ [(uid, tid)]) u uid day).1,
         true) := by
    unfold complete_task_flow
    rw [hct]
  have hmem : (uid, tid) ∈ (comps ++ [(uid, tid)]) := by simp
  have hct2 : complete_task (comps ++ [(uid, tid)]) uid tid
      = (comps ++ [(uid, tid)], false) := by
    unfold complete_task
    rw [if_pos hmem]
  have hflow2 : complete_task_flow tasks (comps ++ [(uid, tid)])
      (apply_streak_if_day_completed tasks (comps ++ [(uid, tid)]) u uid day).1
      uid tid day
      = (comps ++ [(uid, tid)],
         (apply_streak_if_day_completed tasks (comps ++ [(uid, tid)])
           (apply_streak_if_day_completed tasks (comps ++ [(uid, tid)]) u uid day).1
           uid day).1,
         false) := by
    unfold complete_task_flow
    rw [hct2]
  have hidem := apply_streak_idem tasks (comps ++ [(uid, tid)]) u uid day
  rw [hflow1]
  simp only []
  rw [hflow2]
  simp only []
  refine ⟨trivial, trivial, hidem, ?_, fun n => ?_⟩
  · rw [List.count_append]
    rw [List.count_eq_zero.mpr hfresh]
    simp
  · apply Function.iterate_fixed
    unfold flow_step
    simp only []
    rw [hflow2]
    simp only []
    rw [hidem]

theorem complete_task_idempotent_witness :
    ((7, 1) ∉ ([] : List (Int × Int))) ∧
    (complete_task_flow [1]
        (complete_task_flow [1] [] ⟨none, 0, 1⟩ 7 1 100).1
        (complete_task_flow [1] [] ⟨none, 0, 1⟩ 7 1 100).2.1
        7 1 100).2.2 = false :=
  ⟨by decide,
    (complete_task_idempotent [1] [] ⟨none, 0, 1⟩ 7 1 100 (by decide)).1⟩

/-- C6: when the user has just completed all of day `day`'s tasks, the streak
update is: no change if `last_completed_date = day` already; `streak + 1` if
`last_completed_date = day - 1`; otherwise `streak := 1`; in the same update
`level := clamp(1 + streak / LEVEL_STEP_DAYS, 1, MAX_LEVEL)` is recomputed
from the new streak and `last_completed_date := day`.  When not all tasks are
done, nothing changes. -/
theorem apply_streak_transition (tasks : List Int)
    (comps : List (Int × Int)) (u : CUser) (uid day : Int)
    (hstreak : 0 ≤ u.streak_days) :
    (all_tasks_done tasks comps uid = false →
      apply_streak_if_day_completed tasks comps u uid day = (u, false)) ∧
    (all_tasks_done tasks comps uid = true →
      (u.last_completed_date = some day →
        apply_streak_if_day_completed tasks comps u uid day = (u, false)) ∧
      (u.last_completed_date ≠ some day →
        (apply_streak_if_day_completed tasks comps u uid day).2 = true ∧
        (apply_streak_if_day_completed tasks comps u uid day).1.last_completed_date
          = some day ∧
        (apply_streak_if_day_completed tasks comps u uid day).1.streak_days
          = (if u.last_completed_date = some (day - 1)
             then u.streak_days + 1 else 1) ∧
        (apply_streak_if_day_completed tasks comps u uid day).1.level
          = min (max (1 + (apply_streak_if_day_completed tasks comps
              u uid day).1.streak_days / LEVEL_STEP_DAYS) 1) MAX_LEVEL)) := by
  constructor
  · intro hfalse
    unfold apply_streak_if_day_completed
    rw [if_pos (by rw [hfalse]; simp)]
  · intro htrue
    constructor
    · intro hlast
      unfold apply_streak_if_day_completed
      rw [if_neg (by rw [htrue]; simp), if_pos hlast]
    · intro hlast
      have hres : apply_streak_if_day_completed tasks comps u uid day
          = (⟨some day,
              if u.last_completed_date = some (day - 1)
                then u.streak_days + 1 else 1,
              compute_level (if u.last_completed_date = some (day - 1)
                then u.streak_days + 1 else 1)⟩, true) := by
        unfold apply_streak_if_day_completed
        rw [if_neg (by rw [htrue]; simp), if_neg hlast]
      rw [hres]
      simp only []
      refine ⟨trivial, trivial, trivial, ?_⟩
      unfold compute_level
      have hpos : (0 : Int) ≤ (if u.last_completed_date = some (day - 1)
          then u.streak_days + 1 else 1) := by
        by_cases h : u.last_completed_date = some (day - 1)
        · rw [if_pos h]; omega
        · rw [if_neg h]; omega
      rw [max_eq_right hpos]

theorem apply_streak_transition_witness :
    (0 : Int) ≤ (⟨none, 0, 1⟩ : CUser).streak_days ∧
    (apply_streak_if_day_completed [1, 2] [(7, 1), (7, 2)] ⟨none, 0, 1⟩
      7 100).1.streak_days
      = (if (⟨none, 0, 1⟩ : CUser).last_completed_date = some (100 - 1)
         then (⟨none, 0, 1⟩ : CUser).streak_days + 1 else 1) :=
  ⟨by decide,
    (((apply_streak_transition [1, 2] [(7, 1), (7, 2)] ⟨none, 0, 1⟩ 7 100
      (by decide)).2 (by decide)).2 (by decide)).2.2.1⟩

/-! ## Daily task generator (bot.py lines 63-64, 390-454)

A calendar day carries its ordinal (`date.toordinal()`, the RNG seed), its
day-of-month, month, and weekday — the fields `make_daily_code` formats.
Python's `random.Random(day.toordinal()).choices(pool, weights)` draws from
the Mersenne Twister float stream, which is not representable here; it is
modelled by `rngNext`/`pickIndex`, a deterministic integer stream with
cumulative-weight selection.  Every property proved below (determinism in
the day, the campaign slot, the task count, insert idempotence) holds for
any such deterministic stream and does not depend on its values. -/

structure Day where
  ordinal : Nat
  dd : Nat
  mm : Nat
  weekday : Nat
deriving DecidableEq, Repr

/-- Two-digit zero-padded rendering used by `strftime('%d%m')`. -/
def pad2 (n : Nat) : String := if n < 10 then "0" ++ toString n else toString n

/-- `make_daily_code` (bot.py lines 63-64):
`f"{day.strftime('%d%m')}{day.weekday()}{idx}{seed % 10}X"`. -/
def make_daily_code (day : Day) (idx : Nat) (seed : Int) : String :=
  pad2 day.dd ++ pad2 day.mm ++ toString day.weekday ++ toString idx
    ++ toString (seed % 10) ++ "X"

/-- Row of the `task_catalog` table (`type` is spelled `ttype`). -/
structure CatalogRow where
  id : Int
  emoji : String
  title : String
  ttype : String
  content : Option String
  weight : Int
  is_active : Bool
deriving DecidableEq, Repr, Inhabited

/-- One entry of the `selected` list built by `create_daily_tasks`
(a Python dict with `kind`-dependent keys). -/
structure SelTask where
  kind : String
  catalog_id : Option Int
  campaign_id : Option Int
  emoji : String
  title : String
  ttype : String
  content : Option String
  link_url : Option String
deriving DecidableEq, Repr

/-- Row of the `daily_tasks` table (key `(day, idx)` is UNIQUE). -/
structure DailyTask where
  day : Day
  idx : Nat
  kind : String
  catalog_id : Option Int
  campaign_id : Option Int
  emoji : String
  title : String
  ttype : String
  payload : Option String
  link_url : Option String
deriving DecidableEq, Repr

/-- Deterministic integer stand-in for the seeded Mersenne Twister stream
(a 64-bit linear congruential step). -/
def rngNext (s : Nat) : Nat :=
  (6364136223846793005 * s + 1442695040888963407) % (2 ^ 64)

/-- Select an index by cumulative weight, as `random.choices` does. -/
def pickIndex : Nat → List Nat → Nat
  | _, [] => 0
  | r, w :: ws => if r < w then 0 else pickIndex (r - w) ws + 1

/-- The weighted sampling-without-replacement loop of `create_daily_tasks`
(bot.py lines 416-428): `k` draws; each draw uses weights
`max(1, int(r["weight"]))`, appends the choice and removes its id from the
pool. -/
def sample_catalog : Nat → Nat → List CatalogRow → List CatalogRow
  | _, 0, _ => []
  | r, Nat.succ k, pool =>
    let weights := pool.map (fun c => (max 1 c.weight).toNat)
    let total := weights.foldl (fun a b => a + b) 0
    let choice := pool.getD (pickIndex (r % total) weights) default
    choice :: sample_catalog (rngNext r) k
      (pool.filter (fun x => x.id != choice.id))

/-- The `selected` list of `create_daily_tasks` (bot.py lines 401-428): the
active campaign takes the first slot when present; the remaining slots
(`max(0, tasks_per_day - len(selected))`, which is `Nat` subtraction here)
are filled from the active catalog by weighted sampling seeded with the
day's ordinal. -/
def selected_tasks (campaign : Option Campaign) (catalog : List CatalogRow)
    (day : Day) (tasks_per_day : Nat) : List SelTask :=
  let active := catalog.filter (fun r => r.is_active)
  let sel0 : List SelTask :=
    match campaign with
    | some c => [⟨"campaign", none, some c.id, "🎯", "Campaña: " ++ c.name,
                  "campaign_link", none, some c.link_url⟩]
    | none => []
  let remaining_slots := tasks_per_day - sel0.length
  let picked :=
    if active.isEmpty ∨ remaining_slots = 0 then []
    else sample_catalog day.ordinal (min remaining_slots active.length) active
  sel0 ++ picked.map (fun c =>
    ⟨"catalog", some c.id, none, c.emoji, c.title, c.ttype.toLower,
      some ((c.content.getD "").trim), none⟩)

/-- Materialise one `selected` entry as a `daily_tasks` row (bot.py lines
430-452): quizzes get an `answer=` payload, link-ish tasks a `code=` payload
(seeded from `catalog_id or campaign_id or 0`) and a link URL. -/
def to_daily_row (day : Day) (idx : Nat) (t : SelTask) : DailyTask :=
  let payload : Option String :=
    if t.ttype = "quiz" then some ("answer=" ++ (t.content.getD "").toLower)
    else if t.ttype = "link" ∨ t.ttype = "campaign_link" then
      some ("code=" ++ make_daily_code day idx
        (t.catalog_id.getD (t.campaign_id.getD 0)))
    else none
  let link_url : Option String :=
    if t.ttype = "link" ∨ t.ttype = "campaign_link" then
      match t.link_url with
      | some u => some u
      | none => t.content
    else none
  ⟨day, idx, t.kind, t.catalog_id, t.campaign_id, t.emoji, t.title, t.ttype,
    payload, link_url⟩

/-- `for idx, t in enumerate(selected, start=1)` (bot.py line 431). -/
def number_rows (day : Day) : Nat → List SelTask → List DailyTask
  | _, [] => []
  | i, t :: ts => to_daily_row day i t :: number_rows day (i + 1) ts

/-- The rows `create_daily_tasks` generates for a day (pure part). -/
def create_daily_tasks (campaign : Option Campaign)
    (catalog : List CatalogRow) (day : Day) (tasks_per_day : Nat) :
    List DailyTask :=
  number_rows day 1 (selected_tasks campaign catalog day tasks_per_day)

def hasKeyB (table : List DailyTask) (d : Day) (i : Nat) : Bool :=
  table.any (fun t => decide (t.day = d ∧ t.idx = i))

/-- `INSERT … ON CONFLICT (day, idx) DO NOTHING` (bot.py lines 443-452). -/
def insert_daily (table : List DailyTask) (row : DailyTask) :
    List DailyTask :=
  if hasKeyB table row.day row.idx then table else table ++ [row]

def insert_daily_tasks (table rows : List DailyTask) : List DailyTask :=
  rows.foldl insert_daily table

/-- `daily_tasks_exist` (bot.py lines 318-321). -/
def daily_tasks_exist (table : List DailyTask) (d : Day) : Bool :=
  table.any (fun t => decide (t.day = d))

/-- The generation entry point as every handler calls it (e.g. bot.py lines
671-672): generate the day's rows only when none exist yet, inserting with
conflict-skip. -/
def ensure_daily_tasks (table : List DailyTask) (campaign : Option Campaign)
    (catalog : List CatalogRow) (day : Day) (tasks_per_day : Nat) :
    List DailyTask :=
  if daily_tasks_exist table day then table
  else insert_daily_tasks table
    (create_daily_tasks campaign catalog day tasks_per_day)

/-- The rows a day holds (`SELECT … WHERE day=…`). -/
def tasksFor (table : List DailyTask) (d : Day) : List DailyTask :=
  table.filter (fun t => decide (t.day = d))

/-! ### Lemmas about the daily task generator -/

lemma sample_catalog_length (k : Nat) :
    ∀ (r : Nat) (pool : List CatalogRow),
      (sample_catalog r k pool).length = k := by
  induction k with
  | zero => intro r pool; rfl
  | succ k ih =>
    intro r pool
    unfold sample_catalog
    simp only [List.length_cons]
    rw [ih]

lemma selected_tasks_length_none (catalog : List CatalogRow) (day : Day)
    (tpd : Nat) :
    (selected_tasks none catalog day tpd).length
      = min tpd (catalog.filter (fun r => r.is_active)).length := by
  unfold selected_tasks
  simp only [List.nil_append, List.length_map, List.length_nil, Nat.sub_zero]
  by_cases h1 : (catalog.filter (fun r => r.is_active)).isEmpty = true
  · rw [if_pos (Or.inl h1)]
    rw [List.isEmpty_iff.mp h1]
    simp
  · by_cases h2 : tpd = 0
    · rw [if_pos (Or.inr h2), h2]
      simp
    · rw [if_neg (by push_neg; exact ⟨h1, h2⟩)]
      rw [sample_catalog_length]

lemma selected_tasks_length_some (c : Campaign) (catalog : List CatalogRow)
    (day : Day) (tpd : Nat) :
    (selected_tasks (some c) catalog day tpd).length
      = 1 + min (tpd - 1) (catalog.filter (fun r => r.is_active)).length := by
  unfold selected_tasks
  simp only [List.length_append, List.length_map, List.length_cons,
    List.length_nil, Nat.zero_add]
  by_cases h1 : (catalog.filter (fun r => r.is_active)).isEmpty = true
  · rw [if_pos (Or.inl h1)]
    rw [List.isEmpty_iff.mp h1]
    simp
  · by_cases h2 : tpd - 1 = 0
    · rw [if_pos (Or.inr h2), h2]
      simp
    · rw [if_neg (by push_neg; exact ⟨h1, h2⟩)]
      rw [sample_catalog_length]

lemma number_rows_length (day : Day) (sel : List SelTask) :
    ∀ i, (number_rows day i sel).length = sel.length := by
  induction sel with
  | nil => intro i; rfl
  | cons t ts ih =>
    intro i
    unfold number_rows
    simp only [List.length_cons]
    rw [ih]

lemma number_rows_day_mem (day : Day) (sel : List SelTask) :
    ∀ i r, r ∈ number_rows day i sel → r.day = day := by
  induction sel with
  | nil => intro i r hr; cases hr
  | cons t ts ih =>
    intro i r hr
    unfold number_rows at hr
    rcases List.mem_cons.mp hr with h | h
    · rw [h]; rfl
    · exact ih (i + 1) r h

lemma insertAll_cons (tb : List DailyTask) (r : DailyTask)
    (rs : List DailyTask) :
    insert_daily_tasks tb (r :: rs)
      = insert_daily_tasks (insert_daily tb r) rs := rfl

lemma hasKeyB_insert_mono (tb : List DailyTask) (row : DailyTask)
    (d : Day) (i : Nat) (h : hasKeyB tb d i = true) :
    hasKeyB (insert_daily tb row) d i = true := by
  unfold insert_daily
  by_cases hc : hasKeyB tb row.day row.idx = true
  · rw [if_pos hc]; exact h
  · rw [if_neg hc]
    unfold hasKeyB at h ⊢
    rw [List.any_append, h, Bool.true_or]

lemma hasKeyB_insertAll_mono (rows : List DailyTask) :
    ∀ (tb : List DailyTask) (d : Day) (i : Nat),
      hasKeyB tb d i = true →
      hasKeyB (insert_daily_tasks tb rows) d i = true := by
  induction rows with
  | nil => intro tb d i h; exact h
  | cons a as ih =>
    intro tb d i h
    rw [insertAll_cons]
    exact ih _ d i (hasKeyB_insert_mono tb a d i h)

lemma hasKeyB_insert_self (tb : List DailyTask) (row : DailyTask) :
    hasKeyB (insert_daily tb row) row.day row.idx = true := by
  unfold insert_daily
  by_cases hc : hasKeyB tb row.day row.idx = true
  · rw [if_pos hc]; exact hc
  · rw [if_neg hc]
    unfold hasKeyB
    rw [List.any_append]
    simp

lemma all_keys_present (rows : List DailyTask) :
    ∀ (tb : List DailyTask), ∀ r ∈ rows,
      hasKeyB (insert_daily_tasks tb rows) r.day r.idx = true := by
  induction rows with
  | nil => intro tb r hr; cases hr
  | cons a as ih =>
    intro tb r hr
    rw [insertAll_cons]
    rcases List.mem_cons.mp hr with h | h
    · rw [h]
      exact hasKeyB_insertAll_mono as _ a.day a.idx
        (hasKeyB_insert_self tb a)
    · exact ih _ r h

lemma insertAll_of_present (rows : List DailyTask) :
    ∀ (tb : List DailyTask),
      (∀ r ∈ rows, hasKeyB tb r.day r.idx = true) →
      insert_daily_tasks tb rows = tb := by
  induction rows with
  | nil => intro tb _; rfl
  | cons a as ih =>
    intro tb h
    rw [insertAll_cons]
    have ha : insert_daily tb a = tb := by
      unfold insert_daily
      rw [if_pos (h a (List.mem_cons_self a as))]
    rw [ha]
    exact ih tb (fun r hr => h r (List.mem_cons_of_mem a hr))

lemma insertAll_fresh (day : Day) (sel : List SelTask) :
    ∀ (i : Nat) (tb : List DailyTask),
      (∀ j, i ≤ j → hasKeyB tb day j = false) →
      insert_daily_tasks tb (number_rows day i sel)
        = tb ++ number_rows day i sel := by
  induction sel with
  | nil => intro i tb _; simp [insert_daily_tasks, number_rows]
  | cons t ts ih =>
    intro i tb h
    have hrowday : (to_daily_row day i t).day = day := rfl
    have hrowidx : (to_daily_row day i t).idx = i := rfl
    unfold number_rows
    rw [insertAll_cons]
    have hins : insert_daily tb (to_daily_row day i t)
        = tb ++ [to_daily_row day i t] := by
      unfold insert_daily
      rw [hrowday, hrowidx, if_neg (by rw [h i (le_refl i)]; simp)]
    rw [hins]
    rw [ih (i + 1) (tb ++ [to_daily_row day i t]) ?later]
    · rw [List.append_assoc]
      rfl
    case later =>
      intro j hj
      unfold hasKeyB
      rw [List.any_append]
      have h1 : hasKeyB tb day j = false := h j (by omega)
      unfold hasKeyB at h1
      rw [h1]
      simp only [Bool.false_or, List.any_cons, List.any_nil, Bool.or_false]
      rw [decide_eq_false]
      intro hcon
      have : i = j := by rw [← hrowidx]; exact hcon.2
      omega

lemma no_day_rows_hasKeyB (tb : List DailyTask) (d : Day)
    (h : tasksFor tb d = []) : ∀ j, hasKeyB tb d j = false := by
  intro j
  unfold tasksFor at h
  unfold hasKeyB
  rw [List.any_eq_false]
  intro t ht
  have := List.filter_eq_nil_iff.mp h t ht
  simp only [decide_eq_true_eq] at this
  simp only [decide_eq_true_eq]
  intro hcon
  exact this hcon.1

/-! ### Claim theorem for the daily task generator -/

/-- C8: daily task generation is a deterministic function of the day and the
catalog/campaign snapshot: (a) running `ensure_daily_tasks` on any table with
no rows for the day (in particular twice, or by two racing writers) produces
exactly the rows `create_daily_tasks` computes from the snapshot, so the
outcome is identical across runs; (b) an active campaign always occupies
slot 1; (c) when the active catalog is smaller than the remaining slots,
fewer than `tasks_per_day` tasks are created (and generation is total — no
error); (d) re-running generation over a table that already holds the day's
rows changes nothing. -/
theorem create_daily_tasks_deterministic (campaign : Option Campaign)
    (catalog : List CatalogRow) (day : Day) (tpd : Nat) :
    (∀ tb, tasksFor tb day = [] →
      tasksFor (ensure_daily_tasks tb campaign catalog day tpd) day
        = create_daily_tasks campaign catalog day tpd) ∧
    (∀ c, campaign = some c →
      (create_daily_tasks campaign catalog day tpd).head?.map
          (fun t => (t.idx, t.kind, t.campaign_id))
        = some (1, "campaign", some c.id)) ∧
    ((catalog.filter (fun r => r.is_active)).length
        < tpd - (if campaign.isSome then 1 else 0) →
      (create_daily_tasks campaign catalog day tpd).length < tpd) ∧
    (∀ tb, insert_daily_tasks
        (insert_daily_tasks tb (create_daily_tasks campaign catalog day tpd))
        (create_daily_tasks campaign catalog day tpd)
      = insert_daily_tasks tb
          (create_daily_tasks campaign catalog day tpd)) := by
  refine ⟨?_, ?_, ?_, ?_⟩
  · intro tb h
    have hex : daily_tasks_exist tb day = false := by
      unfold daily_tasks_exist
      rw [List.any_eq_false]
      intro t ht
      have := List.filter_eq_nil_iff.mp h t ht
      simpa using this
    unfold ensure_daily_tasks
    rw [if_neg (by rw [hex]; simp)]
    unfold create_daily_tasks
    rw [insertAll_fresh day (selected_tasks campaign catalog day tpd) 1 tb
      (fun j _ => no_day_rows_hasKeyB tb day h j)]
    unfold tasksFor at h ⊢
    rw [List.filter_append, h, List.nil_append]
    apply List.filter_eq_self.mpr
    intro r hr
    simp only [decide_eq_true_eq]
    exact number_rows_day_mem day _ 1 r hr
  · intro c hc
    subst hc
    rfl
  · intro hlen
    unfold create_daily_tasks
    rw [number_rows_length]
    cases campaign with
    | none =>
      simp at hlen
      rw [selected_tasks_length_none]
      rw [min_eq_right (le_of_lt hlen)]
      omega
    | some c =>
      simp at hlen
      rw [selected_tasks_length_some]
      rw [min_eq_right (le_of_lt hlen)]
      omega
  · intro tb
    exact insertAll_of_present _ _ (all_keys_present _ tb)

theorem create_daily_tasks_deterministic_witness :
    tasksFor (ensure_daily_tasks []
        (some ⟨1, "Promo", "https://x", 100, 10, 0, 0, true⟩)
        [] ⟨739000, 5, 3, 2⟩ 3) ⟨739000, 5, 3, 2⟩
      = create_daily_tasks (some ⟨1, "Promo", "https://x", 100, 10, 0, 0, true⟩)
          [] ⟨739000, 5, 3, 2⟩ 3 ∧
    (create_daily_tasks (some ⟨1, "Promo", "https://x", 100, 10, 0, 0, true⟩)
        [] ⟨739000, 5, 3, 2⟩ 3).length < 3 :=
  ⟨(create_daily_tasks_deterministic
      (some ⟨1, "Promo", "https://x", 100, 10, 0, 0, true⟩)
      [] ⟨739000, 5, 3, 2⟩ 3).1 [] rfl,
   (create_daily_tasks_deterministic
      (some ⟨1, "Promo", "https://x", 100, 10, 0, 0, true⟩)
      [] ⟨739000, 5, 3, 2⟩ 3).2.2.1 (by decide)⟩

end Bott1
